import Mathlib

namespace HRM

/-!
# Verification of the `hrm` interpreter and compiler

A shallow embedding, in Lean 4, of the `hrm` Rust crate: a compiler and
interpreter for a small Human-Resource-Machine-style assembly language.
Pure Rust functions become Lean functions; the `run` loops become fueled
or measure-terminating recursions over explicit machine states; Rust
`Result` becomes `Except`; a Rust `panic!`/`unwrap` branch becomes an
explicit `crash`-style constructor so that panic-freedom is provable.

`usize` and `u32` values are modelled as `Nat` (with explicit `% 2 ^ 32`
where a `u32` counter can overflow, and `usize::MAX` as `2 ^ 64 - 1` where
the code uses it as a sentinel); `i32` as `Int` with explicit wrapping
where overflow matters.
-/

/-- Two-complement wrap of an integer into the `i32` range, the release-mode
behaviour of Rust `i32` addition/subtraction. -/
def wrap32 (z : Int) : Int :=
  (z + 2 ^ 31) % 2 ^ 32 - 2 ^ 31

/-- `game::value::Value`: a tagged value, `Int(i32)` or `Char(char)`.
The character payload is modelled as its codepoint (`Nat`). -/
inductive Value where
  | int (z : Int)
  | char (c : Nat)
  deriving DecidableEq

/-- `Value::add` (src/game/value.rs): defined only for `Int + Int`. -/
def Value.add : Value → Value → Option Value
  | .int lhs, .int rhs => some (.int (wrap32 (lhs + rhs)))
  | _, _ => none

/-- `Value::sub` (src/game/value.rs): `Int - Int`, and `Char - Char` as the
codepoint difference (`lhs as i32 - rhs as i32`, which cannot overflow for
valid codepoints). -/
def Value.sub : Value → Value → Option Value
  | .int lhs, .int rhs => some (.int (wrap32 (lhs - rhs)))
  | .char lhs, .char rhs => some (.int ((lhs : Int) - (rhs : Int)))
  | _, _ => none

/-- `impl PartialEq<i32> for Value`: `Int` compares by value, `Char` is
never equal to an integer. -/
def Value.eqInt : Value → Int → Bool
  | .int lhs, rhs => lhs = rhs
  | .char _, _ => false

/-- `impl PartialOrd<i32> for Value`, specialised to `<`: a `Char` has no
order against an integer (`partial_cmp` is `None`), so `<` is `false`. -/
def Value.ltInt : Value → Int → Bool
  | .int lhs, rhs => lhs < rhs
  | .char _, _ => false

/-- `code::commands::CommandValue`: a literal memory index (`Value`) or an
indirect one (`Index`). -/
inductive CommandValue where
  | value (n : Nat)
  | index (n : Nat)
  deriving DecidableEq

/-- The instruction sum type. The Rust `Command` enum itself is declared
outside the files under verification; its variants are fixed by every
`match` in `Program::validate` and `Program::run_io` and by the spec's
instruction list (one variant per keyword plus the implicit `End`
terminator appended by `ProgramBuilder::build`). -/
inductive Command where
  | inbox
  | outbox
  | copyFrom (v : CommandValue)
  | copyTo (v : CommandValue)
  | add (v : CommandValue)
  | sub (v : CommandValue)
  | bumpUp (v : CommandValue)
  | bumpDown (v : CommandValue)
  | jump (l : String)
  | jumpZero (l : String)
  | jumpNegative (l : String)
  | end_
  deriving DecidableEq

/-- Modelled from the spec: `Command::get_type` is declared outside the
sources under `src/` (only its callers are there); each variant's keyword
is pinned by `ALL_COMMANDS`, the per-command `command()` factory strings,
and the validation tests (`Sub` ↦ `"SUB"`). `End` is skipped before every
`get_type` call in the source, so its keyword is never observed. -/
def Command.get_type : Command → String
  | .inbox => "INBOX"
  | .outbox => "OUTBOX"
  | .copyFrom _ => "COPYFROM"
  | .copyTo _ => "COPYTO"
  | .add _ => "ADD"
  | .sub _ => "SUB"
  | .bumpUp _ => "BUMPUP"
  | .bumpDown _ => "BUMPDN"
  | .jump _ => "JUMP"
  | .jumpZero _ => "JUMPZ"
  | .jumpNegative _ => "JUMPN"
  | .end_ => "END"

/-- `code::commands::ALL_COMMANDS`. -/
def ALL_COMMANDS : List String :=
  ["INBOX", "OUTBOX", "COPYFROM", "COPYTO", "ADD", "SUB", "BUMPUP", "BUMPDN",
   "JUMP", "JUMPZ", "JUMPN"]

/-- `code::program::Memory = Vec<Option<Value>>`. -/
def Memory : Type := List (Option Value)

instance : DecidableEq Memory := inferInstanceAs (DecidableEq (List (Option Value)))

/-- `game::problem::ProblemIO`: one input/expected-output tape pair. -/
structure ProblemIo where
  input : List Value
  output : List Value
  deriving DecidableEq

/-- `game::problem::Problem` (title/description omitted: never read by
validation or execution). The `HashSet` of available commands is modelled
as a list queried by membership. -/
structure Problem where
  ios : List ProblemIo
  memory : List (Option Value)
  available_commands : List String

/-- `Problem::is_command_available`. -/
def Problem.is_command_available (p : Problem) (c : String) : Bool :=
  p.available_commands.contains c

/-- `code::program::Program`: instruction list plus label table. The
`HashMap<String, usize>` is modelled as an association list (first match
wins on lookup, insert replaces). -/
structure Program where
  commands : List Command
  labels : List (String × Nat)
  deriving DecidableEq

/-- `HashMap::get` on the label table. -/
def lookupLabel : List (String × Nat) → String → Option Nat
  | [], _ => none
  | (k, v) :: rest, l => if k = l then some v else lookupLabel rest l

/-- `Program::get_label`: `none` is the documented panicking branch
(`self.labels.get(label).unwrap()`). -/
def Program.get_label (p : Program) (l : String) : Option Nat :=
  lookupLabel p.labels l

/-- `code::program::ValidationError`. -/
inductive ValidationError where
  | commandNotAvailable (keyword : String)
  | commandIndex (index : Nat)
  | missingLabel (name : String)
  | labelIndex (index : Nat)
  deriving DecidableEq

/-- `code::program::RunError`. `CharIndex` is the spec's
`CharUsedAsIndex`; the `...New` variants are the payload-free versions the
boxed-command pipeline uses. -/
inductive RunError where
  | emptyAcc (c : Command)
  | emptyAccNew
  | emptyMemory (c : Command)
  | emptyMemoryNew
  | incorrectOutput (expected : Option Value) (value : Option Value)
  | charIndex (v : Value)
  | indexOutOfRange (v : Value)
  | add (c : Command)
  | addNew
  | sub (c : Command)
  | subNew
  deriving DecidableEq

/-- `code::program::ProgramError`. -/
inductive ProgramError where
  | validation (e : ValidationError)
  | run (e : RunError)
  deriving DecidableEq

instance {ε α : Type} [DecidableEq ε] [DecidableEq α] : DecidableEq (Except ε α)
  | .ok a, .ok b => decidable_of_iff (a = b) (by simp)
  | .error a, .error b => decidable_of_iff (a = b) (by simp)
  | .ok _, .error _ => isFalse (by simp)
  | .error _, .ok _ => isFalse (by simp)

/-- `try_get_acc` (src/code/program.rs). -/
def try_get_acc : Option Value → Except RunError Value
  | some acc => .ok acc
  | none => .error .emptyAccNew

/-- `get_acc` (src/code/program.rs): error payload carries the command. -/
def get_acc : Option Value → Command → Except RunError Value
  | some acc, _ => .ok acc
  | none, c => .error (.emptyAcc c)

/-- `try_get_from_memory` (src/code/program.rs). -/
def try_get_from_memory : Option Value → Except RunError Value
  | some v => .ok v
  | none => .error .emptyMemoryNew

/-- `get_from_memory` (src/code/program.rs). -/
def get_from_memory : Option Value → Command → Except RunError Value
  | some v, _ => .ok v
  | none, c => .error (.emptyMemory c)

/-- Result of resolving a memory operand. `crash` is the Rust panic of
`memory[*index]` when the indirection cell itself is out of bounds. -/
inductive IdxRes where
  | ok (n : Nat)
  | err (e : RunError)
  | crash
  deriving DecidableEq

/-- `try_get_index` (src/code/program.rs): a literal operand is returned
unchecked; an indirect operand reads its cell (panicking if the cell index
is out of bounds), requires an `Int` there, and bounds-checks the resolved
target (`idx < 0 || idx as usize >= memory.len()`). -/
def try_get_index (cv : CommandValue) (memory : List (Option Value)) : IdxRes :=
  match cv with
  | .value v => .ok v
  | .index i =>
    match memory[i]? with
    | none => .crash
    | some cell =>
      match try_get_from_memory cell with
      | .error e => .err e
      | .ok (.int idx) =>
        if idx < 0 ∨ memory.length ≤ idx.toNat then
          .err (.indexOutOfRange (.int idx))
        else
          .ok idx.toNat
      | .ok (.char c) => .err (.charIndex (.char c))

/-- `get_index` (src/code/program.rs): as `try_get_index` but the
empty-memory error carries the command. -/
def get_index (cv : CommandValue) (memory : List (Option Value)) (c : Command) : IdxRes :=
  match cv with
  | .value v => .ok v
  | .index i =>
    match memory[i]? with
    | none => .crash
    | some cell =>
      match get_from_memory cell c with
      | .error e => .err e
      | .ok (.int idx) =>
        if idx < 0 ∨ memory.length ≤ idx.toNat then
          .err (.indexOutOfRange (.int idx))
        else
          .ok idx.toNat
      | .ok (.char ch) => .err (.charIndex (.char ch))

/-- The body of `Program::validate`'s per-command loop (src/code/program.rs,
lines 85-116): availability first, then the memory-index check for the six
memory-addressed instructions (the embedded index of either addressing
mode), then the label-presence check for the three jumps. -/
def checkCommand (q : Problem) (labels : List (String × Nat)) (c : Command) :
    Option ValidationError :=
  if ! q.is_command_available c.get_type then
    some (.commandNotAvailable c.get_type)
  else
    match c with
    | .copyFrom v | .copyTo v | .add v | .sub v | .bumpUp v | .bumpDown v =>
      let idx := match v with | .value n => n | .index n => n
      if q.memory.length ≤ idx then some (.commandIndex idx) else none
    | .jump l | .jumpZero l | .jumpNegative l =>
      if lookupLabel labels l = none then some (.missingLabel l) else none
    | _ => none

/-- The command loop of `Program::validate`: `End` is skipped, the first
violation is returned. -/
def validateCommands (q : Problem) (labels : List (String × Nat)) :
    List Command → Option ValidationError
  | [] => none
  | c :: rest =>
    if c = .end_ then validateCommands q labels rest
    else
      match checkCommand q labels c with
      | some e => some e
      | none => validateCommands q labels rest

/-- The label loop of `Program::validate`: rejects `idx > commands.len()`.
The `HashMap` iteration is modelled as iteration over the association
list. -/
def validateLabels (n : Nat) : List (String × Nat) → Option ValidationError
  | [] => none
  | (_, idx) :: rest => if n < idx then some (.labelIndex idx) else validateLabels n rest

/-- `Program::validate` (src/code/program.rs): commands first, then
labels, first violation wins. -/
def Program.validate (p : Program) (q : Problem) : Except ProgramError Unit :=
  match validateCommands q p.labels p.commands with
  | some e => .error (.validation e)
  | none =>
    match validateLabels p.commands.length p.labels with
    | some e => .error (.validation e)
    | none => .ok ()

/-! ## Spec-side restatement of validation (claim C3)

The following definitions follow the words of the claim: every
instruction is checked in order for (a) keyword availability, (b) a
declared required memory index in bounds, (c) a declared required label
present; then every label's target is checked against the instruction
count; the first violation found is the result. -/

/-- Spec-side: the memory index an instruction declares as required. -/
def requiredIndex : Command → Option Nat
  | .copyFrom v | .copyTo v | .add v | .sub v | .bumpUp v | .bumpDown v =>
    some (match v with | .value n => n | .index n => n)
  | _ => none

/-- Spec-side: the label an instruction declares as required. -/
def requiredLabel : Command → Option String
  | .jump l | .jumpZero l | .jumpNegative l => some l
  | _ => none

/-- Spec-side: the first of checks (a), (b), (c) an instruction violates. -/
def instructionError (q : Problem) (labels : List (String × Nat)) (c : Command) :
    Option ValidationError :=
  (if ! q.is_command_available c.get_type then
    some (ValidationError.commandNotAvailable c.get_type) else none)
  <|> ((requiredIndex c).bind fun i =>
    if q.memory.length ≤ i then some (ValidationError.commandIndex i) else none)
  <|> ((requiredLabel c).bind fun l =>
    if lookupLabel labels l = none then some (ValidationError.missingLabel l) else none)

/-- Spec-side: a label whose target index exceeds the instruction count. -/
def labelError (n : Nat) (li : String × Nat) : Option ValidationError :=
  if n < li.2 then some (.labelIndex li.2) else none

/-- Spec-side validation, following the claim: first violation over the
instructions (the `End` terminator is not an instruction), then first
violation over the labels; no aggregation. -/
def spec_validate (p : Program) (q : Problem) : Except ProgramError Unit :=
  match (p.commands.filter (· != Command.end_)).findSome? (instructionError q p.labels) with
  | some e => .error (.validation e)
  | none =>
    match p.labels.findSome? (labelError p.commands.length) with
    | some e => .error (.validation e)
    | none => .ok ()

/-! ## The fetch-execute interpreter over the Program's own instructions

`Program::run_io` (src/code/program.rs, lines 235-365): a `loop` over
`self.commands` driven by the program counter. The loop is embedded as a
step function plus a fueled driver; outcomes distinguish the two Rust
panic sites the claims talk about: `crashLabel` is the documented
`get_label`/`labels.get(..).unwrap()` panic on a missing label, and
`crashOther` any other slice-indexing panic (instruction fetch, memory or
tape access out of bounds). -/

/-- `code::game_state::GameState`, with the input/output tapes kept as
parameters of the interpreter and the cursors in the state. -/
structure GState where
  memory : List (Option Value)
  acc : Option Value
  i_input : Nat
  i_output : Nat
  i_command : Nat
  speed : Nat
  deriving DecidableEq

/-- `GameState::new`: fresh state over a memory snapshot. -/
def initGState (memory : List (Option Value)) : GState :=
  { memory := memory, acc := none, i_input := 0, i_output := 0, i_command := 0, speed := 0 }

/-- Outcome of `Program::run_io` (`Result<u32, RunError>` plus the panic
sites and fuel exhaustion of the embedding). -/
inductive RunOut where
  | ok (speed : Nat)
  | err (e : RunError)
  | crashLabel
  | crashOther
  | fuel
  deriving DecidableEq

/-- The code after `Program::run_io`'s loop: full expected output means
`Ok(speed - 1)` (`u32` subtraction, modelled with wraparound), otherwise
`IncorrectOutput` with the next expected value. The `crashOther` branch is
Rust's `output[i_output]` panic, unreachable from an initial state. -/
def finishG (output : List Value) (s : GState) : RunOut :=
  if s.i_output = output.length then
    .ok ((s.speed + 4294967295) % 4294967296)
  else
    match output[s.i_output]? with
    | some v => .err (.incorrectOutput (some v) none)
    | none => .crashOther

/-- One iteration of `Program::run_io`'s loop: bump the step counter,
fetch the command at the program counter, execute it; `Sum.inl` is the
state at the next iteration, `Sum.inr` a loop exit (result, error or
panic). -/
def stepIo (p : Program) (input output : List Value) (s0 : GState) : GState ⊕ RunOut :=
  let s := { s0 with speed := (s0.speed + 1) % 4294967296 }
  match p.commands[s.i_command]? with
  | none => .inr .crashOther
  | some cmd =>
    match cmd with
    | .inbox =>
      if s.i_input = input.length then .inr (finishG output s)
      else
        match input[s.i_input]? with
        | none => .inr .crashOther
        | some v =>
          .inl { s with acc := some v, i_input := s.i_input + 1,
                        i_command := s.i_command + 1 }
    | .outbox =>
      match get_acc s.acc .outbox with
      | .error e => .inr (.err e)
      | .ok v =>
        if s.i_output = output.length then
          .inr (.err (.incorrectOutput none s.acc))
        else
          match output[s.i_output]? with
          | none => .inr .crashOther
          | some expected =>
            if v = expected then
              .inl { s with i_output := s.i_output + 1, i_command := s.i_command + 1 }
            else
              .inr (.err (.incorrectOutput (some expected) (some v)))
    | .copyFrom cv =>
      match get_index cv s.memory (.copyFrom cv) with
      | .crash => .inr .crashOther
      | .err e => .inr (.err e)
      | .ok idx =>
        match s.memory[idx]? with
        | none => .inr .crashOther
        | some cell =>
          match get_from_memory cell (.copyFrom cv) with
          | .error e => .inr (.err e)
          | .ok v => .inl { s with acc := some v, i_command := s.i_command + 1 }
    | .copyTo cv =>
      match get_acc s.acc (.copyTo cv) with
      | .error e => .inr (.err e)
      | .ok v =>
        match get_index cv s.memory (.copyTo cv) with
        | .crash => .inr .crashOther
        | .err e => .inr (.err e)
        | .ok idx =>
          if idx < s.memory.length then
            .inl { s with memory := s.memory.set idx (some v),
                          i_command := s.i_command + 1 }
          else .inr .crashOther
    | .add cv =>
      match get_acc s.acc (.add cv) with
      | .error e => .inr (.err e)
      | .ok v =>
        match get_index cv s.memory (.add cv) with
        | .crash => .inr .crashOther
        | .err e => .inr (.err e)
        | .ok idx =>
          match s.memory[idx]? with
          | none => .inr .crashOther
          | some cell =>
            match get_from_memory cell (.add cv) with
            | .error e => .inr (.err e)
            | .ok toAdd =>
              match Value.add v toAdd with
              | none => .inr (.err (.add (.add cv)))
              | some sum => .inl { s with acc := some sum, i_command := s.i_command + 1 }
    | .sub cv =>
      match get_acc s.acc (.sub cv) with
      | .error e => .inr (.err e)
      | .ok v =>
        match get_index cv s.memory (.sub cv) with
        | .crash => .inr .crashOther
        | .err e => .inr (.err e)
        | .ok idx =>
          match s.memory[idx]? with
          | none => .inr .crashOther
          | some cell =>
            match get_from_memory cell (.sub cv) with
            | .error e => .inr (.err e)
            | .ok toSub =>
              match Value.sub v toSub with
              | none => .inr (.err (.sub (.sub cv)))
              | some diff => .inl { s with acc := some diff, i_command := s.i_command + 1 }
    | .bumpUp cv =>
      match get_index cv s.memory (.bumpUp cv) with
      | .crash => .inr .crashOther
      | .err e => .inr (.err e)
      | .ok idx =>
        match s.memory[idx]? with
        | none => .inr .crashOther
        | some cell =>
          match get_from_memory cell (.bumpUp cv) with
          | .error e => .inr (.err e)
          | .ok toBump =>
            match Value.add toBump (.int 1) with
            | none => .inr (.err (.add (.bumpUp cv)))
            | some bumped =>
              .inl { s with memory := s.memory.set idx (some bumped),
                            acc := some bumped, i_command := s.i_command + 1 }
    | .bumpDown cv =>
      match get_index cv s.memory (.bumpDown cv) with
      | .crash => .inr .crashOther
      | .err e => .inr (.err e)
      | .ok idx =>
        match s.memory[idx]? with
        | none => .inr .crashOther
        | some cell =>
          match get_from_memory cell (.bumpDown cv) with
          | .error e => .inr (.err e)
          | .ok toBump =>
            match Value.sub toBump (.int 1) with
            | none => .inr (.err (.sub (.bumpDown cv)))
            | some bumped =>
              .inl { s with memory := s.memory.set idx (some bumped),
                            acc := some bumped, i_command := s.i_command + 1 }
    | .jump l =>
      match p.get_label l with
      | none => .inr .crashLabel
      | some idx => .inl { s with i_command := idx }
    | .jumpZero l =>
      match get_acc s.acc (.jumpZero l) with
      | .error e => .inr (.err e)
      | .ok v =>
        if v.eqInt 0 then
          match p.get_label l with
          | none => .inr .crashLabel
          | some idx => .inl { s with i_command := idx }
        else .inl { s with i_command := s.i_command + 1 }
    | .jumpNegative l =>
      match get_acc s.acc (.jumpNegative l) with
      | .error e => .inr (.err e)
      | .ok v =>
        if v.ltInt 0 then
          match lookupLabel p.labels l with
          | none => .inr .crashLabel
          | some idx => .inl { s with i_command := idx }
        else .inl { s with i_command := s.i_command + 1 }
    | .end_ => .inr (finishG output s)

/-- `Program::run_io`, fueled (the source loop is unbounded: a jump cycle
runs forever, so the embedding spends one unit of fuel per iteration). -/
def run_io (p : Program) (input output : List Value) : Nat → GState → RunOut
  | 0, _ => .fuel
  | fuel + 1, s =>
    match stepIo p input output s with
    | .inr out => out
    | .inl s' => run_io p input output fuel s'

/-! ## The live interpreter `Program::run_io_new` and `Program::run`

`Program::run` (src/code/program.rs, lines 143-178) calls `run_io_new`
for each IO case. `run_io_new` (lines 180-233) does NOT execute
`self.commands`: it builds a local hardcoded vector
`[Inbox, Outbox, Inbox, Outbox, Inbox, Outbox]` of boxed command objects
(with `println!` debugging) and drives its loop over that; the call to the
real `run_io` is commented out. The embedding reproduces this faithfully:
the three `Inbox` objects each carry their own `RefCell<bool>` end-of-input
flag (`over0`/`over2`/`over4` below, for the objects at slots 0, 2, 4),
and `Inbox::next` returns `usize::MAX` once the flag is set. -/

/-- `usize::MAX`, the sentinel `Inbox::next` returns on exhausted input. -/
def USIZE_MAX : Nat := 18446744073709551615

/-- The state of one `run_io_new` loop: the `GameState` fields plus the
interior-mutability flags of the three hardcoded `Inbox` objects. -/
structure NState where
  memory : List (Option Value)
  acc : Option Value
  i_input : Nat
  i_output : Nat
  i_command : Nat
  speed : Nat
  over0 : Bool
  over2 : Bool
  over4 : Bool
  deriving DecidableEq

/-- The fresh `GameState` built at the top of `run_io_new` (and fresh
`Inbox` objects, flags cleared). -/
def initNState (memory : List (Option Value)) : NState :=
  { memory := memory, acc := none, i_input := 0, i_output := 0, i_command := 0,
    speed := 0, over0 := false, over2 := false, over4 := false }

/-- Read the `is_over` flag of the `Inbox` object at slot `k ∈ {0, 2, 4}`. -/
def getOver (k : Nat) (s : NState) : Bool :=
  if k = 0 then s.over0 else if k = 2 then s.over2 else s.over4

/-- Set the `is_over` flag of the `Inbox` object at slot `k ∈ {0, 2, 4}`. -/
def setOver (k : Nat) (s : NState) : NState :=
  if k = 0 then { s with over0 := true }
  else if k = 2 then { s with over2 := true }
  else { s with over4 := true }

/-- Outcome of `run_io_new`'s `while` loop: the state at loop exit, a
propagated `RunError`, a Rust panic (`crashed`, tape indexing out of
bounds — unreachable from an initial state), or fuel exhaustion of the
embedding (unreachable with fuel 7, see `loopNew_no_noFuel`). -/
inductive NRes where
  | okS (s : NState)
  | errE (e : RunError)
  | crashed
  | noFuel
  deriving DecidableEq

/-- The body of one `run_io_new` loop iteration: bump the step counter,
execute the command at the program counter of the hardcoded six-command
vector (slots 0, 2, 4 the three `Inbox` objects, slots 1, 3, 5 `Outbox`),
then set the program counter to the command's `next` value. `Sum.inl` is
the state at the next loop-condition check, `Sum.inr` a loop exit (error
or panic). -/
def stepNew (input output : List Value) (s0 : NState) : NState ⊕ NRes :=
  let s := { s0 with speed := (s0.speed + 1) % 4294967296 }
  if s.i_command = 0 ∨ s.i_command = 2 ∨ s.i_command = 4 then
    -- Inbox::execute: exhausted input sets the object's is_over flag;
    -- Inbox::next: usize::MAX once the flag is set, else pc + 1.
    if s.i_input = input.length then
      let s1 := setOver s.i_command s
      .inl { s1 with i_command :=
              if getOver s1.i_command s1 then USIZE_MAX else s1.i_command + 1 }
    else
      match input[s.i_input]? with
      | none => .inr .crashed
      | some v =>
        let s1 := { s with acc := some v, i_input := s.i_input + 1 }
        .inl { s1 with i_command :=
                if getOver s1.i_command s1 then USIZE_MAX else s1.i_command + 1 }
  else
    -- Outbox::execute (src/code/commands/outbox.rs); next is pc + 1.
    match s.acc with
    | none => .inr (.errE .emptyAccNew)
    | some v =>
      if s.i_output = output.length then
        .inr (.errE (.incorrectOutput none (some v)))
      else
        match output[s.i_output]? with
        | none => .inr .crashed
        | some expected =>
          if v = expected then
            .inl { s with i_output := s.i_output + 1, i_command := s.i_command + 1 }
          else
            .inr (.errE (.incorrectOutput (some expected) (some v)))

/-- The `while game_state.i_command < commands.len()` loop of
`run_io_new`, driving `stepNew` while the program counter is below 6. -/
def loopNew (input output : List Value) : Nat → NState → NRes
  | 0, _ => .noFuel
  | fuel + 1, s =>
    if s.i_command < 6 then
      match stepNew input output s with
      | .inr out => out
      | .inl s' => loopNew input output fuel s'
    else .okS s

/-- The code after `run_io_new`'s loop: with the full expected output
produced, the step count minus 1 if the loop ended on an exhausted
`Inbox` (`i_command ≠ commands.len()`), unadjusted if the program counter
reached the command count; otherwise `IncorrectOutput` with the next
expected value. The `(none, none)` branch is unreachable from an initial
state (`i_output ≤ output.length`); Rust panics there. -/
def finishNew (output : List Value) (s : NState) : Except RunError Nat :=
  if s.i_output = output.length then
    .ok (s.speed - (if s.i_command = 6 then 0 else 1))
  else
    match output[s.i_output]? with
    | some v => .error (.incorrectOutput (some v) none)
    | none => .error (.incorrectOutput none none)

/-- `Program::run_io_new`: fresh state, the loop (7 units of fuel bound
its at most 6 iterations, see `loopNew_no_noFuel`), then the halt-reason
scoring. The `crashed`/`noFuel` branches are unreachable from the initial
state (`loopNew_no_crash`, `loopNew_no_noFuel`); their value is a dummy. -/
def run_io_new (input output : List Value) (memory : List (Option Value)) :
    Except RunError Nat :=
  match loopNew input output 7 (initNState memory) with
  | .okS s => finishNew output s
  | .errE e => .error e
  | .crashed => .error .emptyAccNew
  | .noFuel => .error .emptyAccNew

/-- `Score` (src/code/program.rs); `speed_avg: f64` is modelled in `ℚ`
(the claims only exercise exactly representable averages). -/
structure Score where
  size : Nat
  speed_min : Nat
  speed_max : Nat
  speed_avg : ℚ
  deriving DecidableEq

/-- The per-IO-case loop of `Program::run`: fresh copy of the memory
template per case, first error propagated, min/max/sum of step counts
accumulated (`u32` arithmetic for the sum). -/
def runIos (memory : List (Option Value)) :
    List ProblemIo → Nat × Nat × Nat → Except RunError (Nat × Nat × Nat)
  | [], acc => .ok acc
  | io :: rest, (mn, mx, sum) =>
    match run_io_new io.input io.output memory with
    | .error e => .error e
    | .ok speed =>
      let mx' := if mx < speed then speed else mx
      let mn' := if speed < mn then speed else mn
      runIos memory rest (mn', mx', (sum + speed) % 4294967296)

/-- `Program::run` (src/code/program.rs): iterate the problem's IO cases
through `run_io_new`, abort on the first `RunError`, aggregate into a
`Score` with `size = commands.len() - 1` (the `End` terminator excluded)
and min/max/average step counts (`speed_min` starts at `u32::MAX`). -/
def Program.run (p : Program) (q : Problem) : Except RunError Score :=
  match runIos q.memory q.ios (4294967295, 0, 0) with
  | .error e => .error e
  | .ok (mn, mx, sum) =>
    .ok { size := p.commands.length - 1, speed_min := mn, speed_max := mx,
          speed_avg := (sum : ℚ) / (q.ios.length : ℚ) }

/-- Invariant of `run_io_new` states reachable from `initNState`: the tape
cursors stay within bounds and a set `Inbox` flag certifies exhausted
input. -/
def invNew (input output : List Value) (s : NState) : Prop :=
  s.i_input ≤ input.length ∧ s.i_output ≤ output.length ∧
  (s.over0 = true → s.i_input = input.length) ∧
  (s.over2 = true → s.i_input = input.length) ∧
  (s.over4 = true → s.i_input = input.length)

/-! ## The compiler (src/compiler/compile.rs)

`Compiler::compile` / `compile_instruction_new`, with the `commands!()`
registry of eleven per-keyword factories. The regexes are hand-rolled over
`List Char` with ASCII character classes; the source's regex classes
`\s`/`\d` and `str::trim` are Unicode, so the embedding is exact on ASCII
text without embedded newlines (every claim's inputs). `parse::<u32>()`
and `parse::<usize>()` `unwrap`s panic when the numeral exceeds the
integer's range; those panics are the explicit `crashed` outcomes. -/

/-- The ASCII whitespace of the regex class `\s` (and of `str::trim` on
ASCII text): space, `\t`, `\n`, `\x0B`, `\x0C`, `\r`. -/
def isWsA (c : Char) : Bool :=
  c = ' ' || c = '\t' || c = '\n' || c = '\x0B' || c = '\x0C' || c = '\r'

/-- The regex class `[A-Z]`. -/
def isUpperA (c : Char) : Bool :=
  65 ≤ c.toNat && c.toNat ≤ 90

/-- The regex class `[a-z]`. -/
def isLowerA (c : Char) : Bool :=
  97 ≤ c.toNat && c.toNat ≤ 122

/-- The regex class `\d` on ASCII. -/
def isDigitA (c : Char) : Bool :=
  48 ≤ c.toNat && c.toNat ≤ 57

/-- `str::trim`. -/
def trimA (cs : List Char) : List Char :=
  ((cs.dropWhile isWsA).reverse.dropWhile isWsA).reverse

/-- Split a character list at every `'\n'` (the separators are dropped;
`n` newlines give `n + 1` pieces). -/
def splitNl : List Char → List (List Char)
  | [] => [[]]
  | '\n' :: rest => [] :: splitNl rest
  | c :: rest =>
    match splitNl rest with
    | [] => [[c]]
    | piece :: pieces => (c :: piece) :: pieces

/-- Strip one trailing `'\r'` (a piece that ended at a `'\n'` boundary had
any `"\r\n"` line ending reduced to `"\r"` by the split). -/
def stripCr (cs : List Char) : List Char :=
  if cs.getLast? = some '\r' then cs.dropLast else cs

/-- All pieces but the last ended at a `'\n'` and get their `'\r'`
stripped; a final empty piece (the input ended with `'\n'`) is dropped. -/
def linesCore : List (List Char) → List (List Char)
  | [] => []
  | [last] => if last = [] then [] else [last]
  | piece :: pieces => stripCr piece :: linesCore pieces

/-- `str::lines`. -/
def linesOf (s : String) : List String :=
  if s.toList = [] then [] else (linesCore (splitNl s.toList)).map List.asString

/-- The numeric value of a digit run. -/
def digitsVal (ds : List Char) : Nat :=
  ds.foldl (fun acc c => 10 * acc + (c.toNat - 48)) 0

/-- Result of one factory's `create` / one `try_compile_*` matcher:
no match, a parsed value, or a Rust panic (`parse().unwrap()` overflow). -/
inductive TryRes (α : Type) where
  | noMatch
  | crashed
  | found (a : α)
  deriving DecidableEq

/-- The tail `\s+(\d+)$` shared by the `COMMENT` and `DEFINE` regexes:
at least one whitespace, then a nonempty digit run to the end. -/
def matchWsDigits (rest : List Char) : Option (List Char) :=
  let ws := rest.takeWhile isWsA
  let after := rest.dropWhile isWsA
  if ws = [] then none
  else
    let ds := after.takeWhile isDigitA
    if ds ≠ [] ∧ after.dropWhile isDigitA = [] then some ds else none

/-- `try_compile_comment`: regex `^COMMENT\s+(\d+)$`, then
`parse::<u32>().unwrap()` — the unwrap panics above `u32::MAX`. -/
def try_compile_comment (t : String) : TryRes Nat :=
  let cs := t.toList
  if cs.take 7 = "COMMENT".toList then
    match matchWsDigits (cs.drop 7) with
    | none => .noMatch
    | some ds => if digitsVal ds < 4294967296 then .found (digitsVal ds) else .crashed
  else .noMatch

/-- `compiler::compile::DefineInstruction`. -/
inductive DefineInstruction where
  | COMMENT (n : Nat)
  | LABEL (n : Nat)
  deriving DecidableEq

/-- `try_compile_define`: regex `^DEFINE\s+(COMMENT|LABEL)\s+(\d+)$`, then
`parse::<u32>().unwrap()`. -/
def try_compile_define (t : String) : TryRes DefineInstruction :=
  let cs := t.toList
  if cs.take 6 = "DEFINE".toList then
    let rest := cs.drop 6
    let ws := rest.takeWhile isWsA
    let after := rest.dropWhile isWsA
    if ws = [] then .noMatch
    else if after.take 7 = "COMMENT".toList then
      match matchWsDigits (after.drop 7) with
      | none => .noMatch
      | some ds =>
        if digitsVal ds < 4294967296 then .found (.COMMENT (digitsVal ds)) else .crashed
    else if after.take 5 = "LABEL".toList then
      match matchWsDigits (after.drop 5) with
      | none => .noMatch
      | some ds =>
        if digitsVal ds < 4294967296 then .found (.LABEL (digitsVal ds)) else .crashed
    else .noMatch
  else .noMatch

/-- `try_compile_new_label`: regex `^([a-z]+):$`. -/
def try_compile_new_label (t : String) : Option String :=
  let cs := t.toList
  let ls := cs.takeWhile isLowerA
  if ls ≠ [] ∧ cs.dropWhile isLowerA = [':'] then some ls.asString else none

/-- `compile_label` (the jump commands' argument grammar `^([a-z]+)$`). -/
def compile_label (args : String) : Option String :=
  if args.toList ≠ [] ∧ args.toList.all isLowerA then some args else none

/-- `try_compile_command_value`: regex `^(\[\d+]|\d+)$`; bare digits are a
literal index, bracketed digits an indirect one; then
`parse::<usize>().unwrap()` — the unwrap panics above `usize::MAX`. -/
def compile_command_value (args : String) : TryRes CommandValue :=
  let mk : Bool → List Char → TryRes CommandValue := fun indirect ds =>
    if digitsVal ds < 18446744073709551616 then
      .found (if indirect then .index (digitsVal ds) else .value (digitsVal ds))
    else .crashed
  match args.toList with
  | '[' :: rest =>
    let ds := rest.takeWhile isDigitA
    if ds ≠ [] ∧ rest.dropWhile isDigitA = [']'] then mk true ds else .noMatch
  | cs =>
    let ds := cs.takeWhile isDigitA
    if ds ≠ [] ∧ cs.dropWhile isDigitA = [] then mk false ds else .noMatch

/-- Lift a factory's argument grammar over `TryRes`. -/
def tryMap {α β : Type} (f : α → β) : TryRes α → TryRes β
  | .noMatch => .noMatch
  | .crashed => .crashed
  | .found a => .found (f a)

/-- Modelled from the spec: the `create_with_args!` glue and the trait-level
`create(command, args)` implementations are declared outside `src/`; per
the spec each parser is keyed by its keyword (`keyword()` is the static
dispatch token) and parses its argument string. The eleven factories in
`commands!()` registration order: Inbox, Outbox, CopyFrom, CopyTo, Add,
Sub, BumpUp, BumpDown, Jump, JumpZero, JumpNegative; the first that
accepts wins (keywords are pairwise distinct, so the keyword gate makes
the chain deterministic). The argument grammars are the per-command
`create` functions from src/code/commands/. -/
def factoryCreate (kw args : String) : TryRes Command :=
  if kw = "INBOX" then (if args = "" then .found .inbox else .noMatch)
  else if kw = "OUTBOX" then (if args = "" then .found .outbox else .noMatch)
  else if kw = "COPYFROM" then tryMap Command.copyFrom (compile_command_value args)
  else if kw = "COPYTO" then tryMap Command.copyTo (compile_command_value args)
  else if kw = "ADD" then tryMap Command.add (compile_command_value args)
  else if kw = "SUB" then tryMap Command.sub (compile_command_value args)
  else if kw = "BUMPUP" then tryMap Command.bumpUp (compile_command_value args)
  else if kw = "BUMPDN" then tryMap Command.bumpDown (compile_command_value args)
  else if kw = "JUMP" then
    match compile_label args with
    | some l => .found (.jump l)
    | none => .noMatch
  else if kw = "JUMPZ" then
    match compile_label args with
    | some l => .found (.jumpZero l)
    | none => .noMatch
  else if kw = "JUMPN" then
    match compile_label args with
    | some l => .found (.jumpNegative l)
    | none => .noMatch
  else .noMatch

/-- `Compiler::try_compile_command`: regex `^([A-Z]+)\s*(.*)$` — the
(greedy) keyword is the maximal uppercase prefix, then maximal whitespace,
then the argument string — fed to the factory chain. -/
def try_compile_command (t : String) : TryRes Command :=
  let cs := t.toList
  let kw := cs.takeWhile isUpperA
  if kw = [] then .noMatch
  else factoryCreate kw.asString ((cs.dropWhile isUpperA).dropWhile isWsA).asString

/-- `compiler::compile::ParseError`. -/
inductive ParseError where
  | IllegalLine (s : String)
  deriving DecidableEq

/-- `compiler::compile::ParsedLine` (the `Command(Command)` variant of the
old pipeline is unused by `compile_instruction_new`). -/
inductive ParsedLine where
  | Comment (n : Nat)
  | Label (l : String)
  | CommandNew (c : Command)
  | Empty
  | CommentedCode
  | Define (d : DefineInstruction)
  deriving DecidableEq

/-- Outcome of classifying one line: a `ParsedLine`, `IllegalLine`, or a
Rust panic (numeral overflow in a pragma or operand). -/
inductive CRes where
  | ok (pl : ParsedLine)
  | err (e : ParseError)
  | crashed
  deriving DecidableEq

/-- `Compiler::compile_instruction_new`: trim, then classify as blank /
commented-out block delimiter (`--...--`) / `COMMENT` pragma / `DEFINE`
pragma / label declaration / instruction, in that order, first match wins;
otherwise `IllegalLine` with the trimmed text. -/
def compile_instruction_new (line : String) : CRes :=
  let t : String := (trimA line.toList).asString
  if t = "" then .ok .Empty
  else if t.toList.take 2 = ['-', '-'] ∧ t.toList.reverse.take 2 = ['-', '-'] then
    .ok .CommentedCode
  else
    match try_compile_comment t with
    | .found n => .ok (.Comment n)
    | .crashed => .crashed
    | .noMatch =>
      match try_compile_define t with
      | .found d => .ok (.Define d)
      | .crashed => .crashed
      | .noMatch =>
        match try_compile_new_label t with
        | some l => .ok (.Label l)
        | none =>
          match try_compile_command t with
          | .found c => .ok (.CommandNew c)
          | .crashed => .crashed
          | .noMatch => .err (.IllegalLine t)

/-- `HashMap::insert` on the label table (`ProgramBuilder::add_label_ref`):
replace an existing key or append. -/
def insertLabel : List (String × Nat) → String → Nat → List (String × Nat)
  | [], k, v => [(k, v)]
  | (k', v') :: rest, k, v =>
    if k' = k then (k, v) :: rest else (k', v') :: insertLabel rest k v

/-- Outcome of compiling a whole source text. -/
inductive CPRes where
  | ok (p : Program)
  | err (e : ParseError)
  | crashed
  deriving DecidableEq

/-- The line loop of `Compiler::compile` over a `ProgramBuilder`
(accumulated commands and labels): labels bind to the index of the next
emitted instruction, instructions are appended, every other parsed line is
ignored, the first error aborts; `ProgramBuilder::build` finally appends
`Command::End`. Modelled from the spec where `src/` is silent: the
builder's `add_command_ref_new` only appears at this call site; per the
spec it appends the parsed instruction to the ordered sequence. -/
def compileGo (cmds : List Command) (labels : List (String × Nat)) :
    List String → CPRes
  | [] => .ok ⟨cmds ++ [.end_], labels⟩
  | line :: rest =>
    match compile_instruction_new line with
    | .crashed => .crashed
    | .err e => .err e
    | .ok (.Label l) => compileGo cmds (insertLabel labels l cmds.length) rest
    | .ok (.CommandNew c) => compileGo (cmds ++ [c]) labels rest
    | .ok _ => compileGo cmds labels rest

/-- `Compiler::compile` (with the default `commands!()` registry): feed
every line of the source text through `compile_instruction_new` into a
`ProgramBuilder`. -/
def Compiler.compile (code : String) : CPRes :=
  compileGo [] [] (linesOf code)

/-! ## Spec-side restatement of line classification (claim C8)

The claim lists the shapes a trimmed line is tried against, in order:
blank → commented-out block delimiter (`--...--`) → `COMMENT`/`DEFINE`
pragma directive → label declaration → instruction; the first matching
shape wins and a line matching none fails the whole compilation with
`IllegalLine`. The shape grammars themselves are the source's parsers
(the claim names the shapes and defers their grammar to the registered
parsers); the classifier below restates the dispatch. -/

/-- Spec-side: a blank line. -/
def specBlank (t : String) : Bool :=
  t.length == 0

/-- Spec-side: a commented-out block delimiter, starting and ending with
`--`. -/
def specCommentedOut (t : String) : Bool :=
  "--".toList.isPrefixOf t.toList && "--".toList.isSuffixOf t.toList

/-- Spec-side: the pragma directives, `COMMENT <uint>` or
`DEFINE (COMMENT|LABEL) <uint>`, as one alternative. -/
def specPragma (t : String) : TryRes ParsedLine :=
  match try_compile_comment t with
  | .found n => .found (.Comment n)
  | .crashed => .crashed
  | .noMatch =>
    match try_compile_define t with
    | .found d => .found (.Define d)
    | .crashed => .crashed
    | .noMatch => .noMatch

/-- Spec-side classifier: the claim's fixed shape order with
first-match-wins and the `IllegalLine` fallback carrying the trimmed
line's text. -/
def specClassify (line : String) : CRes :=
  let t : String := (trimA line.toList).asString
  if specBlank t then .ok .Empty
  else if specCommentedOut t then .ok .CommentedCode
  else
    match specPragma t with
    | .found pl => .ok pl
    | .crashed => .crashed
    | .noMatch =>
      match try_compile_new_label t with
      | some l => .ok (.Label l)
      | none =>
        match try_compile_command t with
        | .found c => .ok (.CommandNew c)
        | .crashed => .crashed
        | .noMatch => .err (.IllegalLine t)

lemma checkCommand_eq_instructionError (q : Problem) (labels : List (String × Nat))
    (c : Command) : checkCommand q labels c = instructionError q labels c := by
  cases c <;>
    simp [checkCommand, instructionError, requiredIndex, requiredLabel, Option.orElse] <;>
    split <;> simp

lemma validateCommands_eq_findSome (q : Problem) (labels : List (String × Nat)) :
    ∀ cmds : List Command,
      validateCommands q labels cmds
        = (cmds.filter (· != Command.end_)).findSome? (instructionError q labels) := by
  intro cmds
  induction cmds with
  | nil => rfl
  | cons c rest ih =>
    by_cases hc : c = Command.end_
    · subst hc
      simpa [validateCommands] using ih
    · rw [validateCommands, if_neg hc, checkCommand_eq_instructionError]
      rw [List.filter_cons_of_pos (by simpa using hc), List.findSome?_cons]
      cases instructionError q labels c <;> simp [ih]

lemma validateLabels_eq_findSome (n : Nat) :
    ∀ ls : List (String × Nat), validateLabels n ls = ls.findSome? (labelError n) := by
  intro ls
  induction ls with
  | nil => rfl
  | cons li rest ih =>
    obtain ⟨name, idx⟩ := li
    rw [validateLabels, List.findSome?_cons]
    by_cases h : n < idx
    · simp [labelError, h]
    · simp [labelError, h, ih]

lemma getElem?_append_cons {α : Type} (pre post : List α) (x : α) :
    (pre ++ x :: post)[pre.length]? = some x := by
  rw [List.getElem?_append_right (Nat.le_refl _)]
  simp

lemma mem_of_getElem? {α : Type} {l : List α} {n : Nat} {a : α}
    (h : l[n]? = some a) : a ∈ l := by
  induction l generalizing n with
  | nil => simp at h
  | cons x xs ih =>
    cases n with
    | zero =>
      simp only [List.getElem?_cons_zero, Option.some.injEq] at h
      exact h ▸ List.mem_cons_self x xs
    | succ m =>
      simp only [List.getElem?_cons_succ] at h
      exact List.mem_cons_of_mem _ (ih h)

lemma checkCommand_label {q : Problem} {labels : List (String × Nat)} {c : Command}
    {l : String} (hc : checkCommand q labels c = none)
    (hl : requiredLabel c = some l) : lookupLabel labels l ≠ none := by
  cases c <;> simp only [requiredLabel] at hl <;> cases hl
  all_goals
    simp only [checkCommand] at hc
    split at hc
    · cases hc
    · split at hc
      · cases hc
      · assumption

lemma validateCommands_label {q : Problem} {labels : List (String × Nat)} :
    ∀ {cmds : List Command}, validateCommands q labels cmds = none →
      ∀ c ∈ cmds, ∀ l, requiredLabel c = some l → lookupLabel labels l ≠ none := by
  intro cmds
  induction cmds with
  | nil => intro _ c hc; cases hc
  | cons d rest ih =>
    intro h c hmem l hl
    rw [validateCommands] at h
    by_cases hd : d = Command.end_
    · rw [if_pos hd] at h
      rcases List.mem_cons.mp hmem with rfl | hm
      · subst hd; cases hl
      · exact ih h c hm l hl
    · rw [if_neg hd] at h
      cases hck : checkCommand q labels d with
      | some e => rw [hck] at h; cases h
      | none =>
        rw [hck] at h
        rcases List.mem_cons.mp hmem with rfl | hm
        · exact checkCommand_label hck hl
        · exact ih h c hm l hl

lemma finishG_ne_crashLabel (output : List Value) (s : GState) :
    finishG output s ≠ .crashLabel := by
  unfold finishG
  split
  · simp
  · split <;> simp

lemma stepIo_no_crashLabel {p : Program} {input output : List Value}
    (H : ∀ c ∈ p.commands, ∀ l, requiredLabel c = some l → lookupLabel p.labels l ≠ none)
    (s : GState) : stepIo p input output s ≠ .inr .crashLabel := by
  have H' : ∀ c ∈ p.commands, ∀ l, requiredLabel c = some l → p.get_label l ≠ none := H
  simp only [stepIo]
  split
  · simp
  next cmd hfetch =>
    have hmem := mem_of_getElem? hfetch
    repeat' split
    all_goals
      first
        | (exfalso
           exact H' _ hmem _ rfl (by assumption))
        | exact fun hF => finishG_ne_crashLabel _ _ (Sum.inr.inj hF)
        | (intro hF
           cases hF)

lemma stepNew_spec (input output : List Value) (s : NState)
    (hinv : invNew input output s) :
    (stepNew input output s ≠ .inr .crashed ∧ stepNew input output s ≠ .inr .noFuel
      ∧ ∀ t, stepNew input output s ≠ .inr (.okS t))
    ∧ ∀ s', stepNew input output s = .inl s' →
        invNew input output s' ∧
        (s'.i_command = s.i_command + 1
          ∨ (s'.i_command = USIZE_MAX ∧ s'.i_input = input.length)) := by
  obtain ⟨hin, hout, h0, h2, h4⟩ := hinv
  unfold stepNew
  dsimp only
  by_cases hslot : s.i_command = 0 ∨ s.i_command = 2 ∨ s.i_command = 4
  · rw [if_pos hslot]
    by_cases hex : s.i_input = input.length
    · rw [if_pos hex]
      rcases hslot with h | h | h <;> rw [h] <;>
        simp_all [setOver, getOver, invNew, USIZE_MAX]
    · rw [if_neg hex]
      cases hv : input[s.i_input]? with
      | none =>
        rw [List.getElem?_eq_none_iff] at hv
        omega
      | some v =>
        have hlt : s.i_input < input.length := by
          by_contra hge
          rw [List.getElem?_eq_none_iff.mpr (by omega)] at hv
          cases hv
        have hov0 : s.over0 = false := by
          cases hb : s.over0
          · rfl
          · exact absurd (h0 hb) hex
        have hov2 : s.over2 = false := by
          cases hb : s.over2
          · rfl
          · exact absurd (h2 hb) hex
        have hov4 : s.over4 = false := by
          cases hb : s.over4
          · rfl
          · exact absurd (h4 hb) hex
        rcases hslot with h | h | h <;> rw [h] <;>
          simp_all [setOver, getOver, invNew, USIZE_MAX] <;> omega
  · rw [if_neg hslot]
    cases hacc : s.acc with
    | none => exact ⟨⟨by simp, by simp, by simp⟩, fun s' hs' => by cases hs'⟩
    | some v =>
      dsimp only
      by_cases hol : s.i_output = output.length
      · rw [if_pos hol]
        exact ⟨⟨by simp, by simp, by simp⟩, fun s' hs' => by cases hs'⟩
      · rw [if_neg hol]
        cases hv : output[s.i_output]? with
        | none =>
          rw [List.getElem?_eq_none_iff] at hv
          omega
        | some expected =>
          dsimp only
          by_cases hve : v = expected
          · rw [if_pos hve]
            refine ⟨by simp, ?_⟩
            intro s' hs'
            injection hs' with hs'
            subst hs'
            exact ⟨⟨hin, by show s.i_output + 1 ≤ output.length; omega, h0, h2, h4⟩,
              Or.inl rfl⟩
          · rw [if_neg hve]
            exact ⟨⟨by simp, by simp, by simp⟩, fun s' hs' => by cases hs'⟩

lemma loopNew_spec (input output : List Value) :
    ∀ (fuel : Nat) (s : NState), invNew input output s →
      (s.i_command ≤ 6 ∨ (s.i_command = USIZE_MAX ∧ s.i_input = input.length)) →
      6 - s.i_command < fuel →
      (loopNew input output fuel s ≠ .noFuel ∧ loopNew input output fuel s ≠ .crashed)
      ∧ ∀ s', loopNew input output fuel s = .okS s' →
          s'.i_command = 6 ∨ (s'.i_command = USIZE_MAX ∧ s'.i_input = input.length) := by
  intro fuel
  induction fuel with
  | zero => intro s _ _ h; omega
  | succ f ih =>
    intro s hinv hdisj hfuel
    rw [loopNew]
    by_cases hlt : s.i_command < 6
    · rw [if_pos hlt]
      obtain ⟨hno, hstep⟩ := stepNew_spec input output s hinv
      cases hs : stepNew input output s with
      | inr out =>
        dsimp only
        refine ⟨⟨?_, ?_⟩, ?_⟩
        · intro hcontra; subst hcontra; exact hno.2.1 hs
        · intro hcontra; subst hcontra; exact hno.1 hs
        · intro s' hcontra; subst hcontra; exact absurd hs (hno.2.2 s')
      | inl s' =>
        dsimp only
        obtain ⟨hinv', hcmd'⟩ := hstep s' hs
        apply ih s' hinv'
        · rcases hcmd' with h | ⟨h, hx⟩
          · exact Or.inl (by omega)
          · exact Or.inr ⟨h, hx⟩
        · rcases hcmd' with h | ⟨h, _⟩ <;> rw [h] <;> simp [USIZE_MAX] <;> omega
    · rw [if_neg hlt]
      refine ⟨⟨by simp, by simp⟩, ?_⟩
      intro s' hs'
      injection hs' with hs'
      subst hs'
      rcases hdisj with h | h
      · exact Or.inl (by omega)
      · exact Or.inr h

lemma invNew_init (input output : List Value) (memory : List (Option Value)) :
    invNew input output (initNState memory) :=
  ⟨Nat.zero_le _, Nat.zero_le _, by simp [initNState], by simp [initNState],
   by simp [initNState]⟩

/-- `run_io_new`'s loop never exhausts 7 units of fuel from the initial
state: the program counter strictly increases towards the six-slot bound
or jumps to `usize::MAX`. -/
lemma loopNew_no_noFuel (input output : List Value) (memory : List (Option Value)) :
    loopNew input output 7 (initNState memory) ≠ .noFuel :=
  (loopNew_spec input output 7 (initNState memory) (invNew_init input output memory)
    (Or.inl (by simp [initNState])) (by simp [initNState])).1.1

/-- `run_io_new`'s loop never panics from the initial state: the tape
cursors stay within bounds. -/
lemma loopNew_no_crash (input output : List Value) (memory : List (Option Value)) :
    loopNew input output 7 (initNState memory) ≠ .crashed :=
  (loopNew_spec input output 7 (initNState memory) (invNew_init input output memory)
    (Or.inl (by simp [initNState])) (by simp [initNState])).1.2

/-- At loop exit the program counter is either exactly the command count 6
(natural end) or `usize::MAX` with the input exhausted (the loop ended on
an `Inbox` whose `is_over` flag was set). -/
lemma loopNew_halt_char (input output : List Value) (memory : List (Option Value))
    (s' : NState) (h : loopNew input output 7 (initNState memory) = .okS s') :
    s'.i_command = 6 ∨ (s'.i_command = USIZE_MAX ∧ s'.i_input = input.length) :=
  (loopNew_spec input output 7 (initNState memory) (invNew_init input output memory)
    (Or.inl (by simp [initNState])) (by simp [initNState])).2 s' h

lemma string_eq_empty_iff (t : String) : t = "" ↔ t.data = [] := by
  constructor
  · intro h
    rw [h]
  · intro h
    obtain ⟨data⟩ := t
    simp only at h
    rw [h]

lemma specBlank_true_iff (t : String) : specBlank t = true ↔ t = "" := by
  rw [string_eq_empty_iff]
  obtain ⟨data⟩ := t
  simp only [specBlank, beq_iff_eq, String.length]
  exact List.length_eq_zero

lemma isPrefixOf_pair_iff (a b : Char) (cs : List Char) :
    ([a, b].isPrefixOf cs = true) ↔ cs.take 2 = [a, b] := by
  match cs with
  | [] => simp [List.isPrefixOf]
  | [x] => simp [List.isPrefixOf]
  | x :: y :: rest =>
    rw [show List.take 2 (x :: y :: rest) = [x, y] from rfl]
    simp only [List.isPrefixOf, Bool.and_eq_true, beq_iff_eq, List.cons.injEq,
      and_true]
    constructor
    · rintro ⟨h1, h2⟩
      subst h1
      subst h2
      exact ⟨rfl, rfl⟩
    · rintro ⟨h1, h2⟩
      subst h1
      subst h2
      exact ⟨rfl, rfl⟩

lemma specCommentedOut_true_iff (t : String) :
    specCommentedOut t = true
      ↔ (t.toList.take 2 = ['-', '-'] ∧ t.toList.reverse.take 2 = ['-', '-']) := by
  have hpre : "--".toList = ['-', '-'] := rfl
  have hrev : (['-', '-'] : List Char).reverse = ['-', '-'] := rfl
  simp only [specCommentedOut, hpre, Bool.and_eq_true, List.isSuffixOf, hrev,
    isPrefixOf_pair_iff]

lemma compile_instruction_new_eq_specClassify (line : String) :
    compile_instruction_new line = specClassify line := by
  unfold compile_instruction_new specClassify
  set t : String := (trimA line.toList).asString with ht
  by_cases hb : t = ""
  · rw [if_pos hb, if_pos ((specBlank_true_iff t).mpr hb)]
  · rw [if_neg hb, if_neg (fun h => hb ((specBlank_true_iff t).mp h))]
    by_cases hcc : t.toList.take 2 = ['-', '-'] ∧ t.toList.reverse.take 2 = ['-', '-']
    · rw [if_pos hcc, if_pos ((specCommentedOut_true_iff t).mpr hcc)]
    · rw [if_neg hcc, if_neg (fun h => hcc ((specCommentedOut_true_iff t).mp h))]
      unfold specPragma
      cases hc : try_compile_comment t
      · cases hd : try_compile_define t <;> rfl
      · rfl
      · rfl

lemma compileGo_first_illegal (pre : List String) :
    ∀ (cmds : List Command) (labels : List (String × Nat)) (post : List String)
      (t : String) (e : ParseError),
      (∀ l ∈ pre, ∃ pl, compile_instruction_new l = .ok pl) →
      compile_instruction_new t = .err e →
      compileGo cmds labels (pre ++ t :: post) = .err e := by
  induction pre with
  | nil =>
    intro cmds labels post t e _ ht
    rw [List.nil_append, compileGo, ht]
  | cons l pre' ih =>
    intro cmds labels post t e hpre ht
    obtain ⟨pl, hpl⟩ := hpre l (List.mem_cons_self l pre')
    have hrest : ∀ l' ∈ pre', ∃ pl', compile_instruction_new l' = .ok pl' :=
      fun l' hl' => hpre l' (List.mem_cons_of_mem l hl')
    rw [List.cons_append, compileGo, hpl]
    cases pl <;> exact ih _ _ _ _ _ hrest ht

/-- C3: `validate` checks every instruction in order for (a) keyword
availability, (b) a declared required memory index being below the memory
length, (c) a declared required label being present; then every label's
target index not exceeding the instruction count; it returns the first
violation found (as `CommandNotAvailable`/`CommandIndex`/`MissingLabel`/
`LabelIndex`) and never aggregates errors — stated as equality with the
spec-side first-violation validator. -/
theorem c3_validate_first_violation (p : Program) (q : Problem) :
    p.validate q = spec_validate p q := by
  unfold Program.validate spec_validate
  rw [validateCommands_eq_findSome, validateLabels_eq_findSome]

/-- C6: `Value::add` yields an Int for every Int/Int pair and fails on any
pair involving a Char; `Value::sub` yields an Int for every Int/Int pair
and every Char/Char pair (the codepoint difference) and fails on the mixed
pairs. -/
theorem c6_value_arithmetic :
    (∀ x y : Int, ∃ z : Int, Value.add (.int x) (.int y) = some (.int z))
    ∧ (∀ (x : Int) (c : Nat), Value.add (.int x) (.char c) = none)
    ∧ (∀ (c : Nat) (x : Int), Value.add (.char c) (.int x) = none)
    ∧ (∀ c d : Nat, Value.add (.char c) (.char d) = none)
    ∧ (∀ x y : Int, ∃ z : Int, Value.sub (.int x) (.int y) = some (.int z))
    ∧ (∀ c d : Nat, Value.sub (.char c) (.char d) = some (.int ((c : Int) - (d : Int))))
    ∧ (∀ (x : Int) (c : Nat), Value.sub (.int x) (.char c) = none)
    ∧ (∀ (c : Nat) (x : Int), Value.sub (.char c) (.int x) = none) :=
  ⟨fun x y => ⟨wrap32 (x + y), rfl⟩, fun _ _ => rfl, fun _ _ => rfl, fun _ _ => rfl,
   fun x y => ⟨wrap32 (x - y), rfl⟩, fun _ _ => rfl, fun _ _ => rfl, fun _ _ => rfl⟩

/-- C7: a `Literal` operand always resolves to its own index (unchecked);
an `Indirect` operand reads its memory cell and resolves to the Int stored
there, failing with the empty-memory error on an empty cell, with
`CharIndex` (the spec's `CharUsedAsIndex`) on a Char, and with
`IndexOutOfRange` when the resolved target is negative or not below the
memory length; `get_index` behaves as `try_get_index` with the
empty-memory error tagged with the command. -/
theorem c7_operand_resolution :
    (∀ (i : Nat) (mem : List (Option Value)), try_get_index (.value i) mem = .ok i)
    ∧ (∀ pre post : List (Option Value),
        try_get_index (.index pre.length) (pre ++ none :: post) = .err .emptyMemoryNew)
    ∧ (∀ (pre post : List (Option Value)) (c : Nat),
        try_get_index (.index pre.length) (pre ++ some (.char c) :: post)
          = .err (.charIndex (.char c)))
    ∧ (∀ (pre post : List (Option Value)) (z : Int),
        try_get_index (.index pre.length) (pre ++ some (.int z) :: post)
          = if z < 0 ∨ (pre ++ some (.int z) :: post).length ≤ z.toNat
            then .err (.indexOutOfRange (.int z))
            else .ok z.toNat)
    ∧ (∀ (cv : CommandValue) (mem : List (Option Value)) (c : Command),
        get_index cv mem c
          = match try_get_index cv mem with
            | .err .emptyMemoryNew => .err (.emptyMemory c)
            | r => r) := by
  refine ⟨fun _ _ => rfl, ?_, ?_, ?_, ?_⟩
  · intro pre post
    simp only [try_get_index, getElem?_append_cons, try_get_from_memory]
  · intro pre post c
    simp only [try_get_index, getElem?_append_cons, try_get_from_memory]
  · intro pre post z
    simp only [try_get_index, getElem?_append_cons, try_get_from_memory]
  · intro cv mem c
    cases cv with
    | value v => rfl
    | index i =>
      simp only [try_get_index, get_index]
      cases mem[i]? with
      | none => rfl
      | some cell =>
        cases cell with
        | none => rfl
        | some v =>
          cases v with
          | int z =>
            simp only [try_get_from_memory, get_from_memory]
            split <;> rfl
          | char ch => rfl

/-- C2: if `validate` succeeds, execution (the fetch-execute interpreter
`run_io`) never reaches the panicking branch of `Program::get_label`: every
label lookup performed for `Jump`, `JumpZero` and `JumpNegative` finds its
label, for any input/output tapes, any fuel and any machine state. (The
`CommandNotAvailable`/`CommandIndex`/`MissingLabel`/`LabelIndex` classes
are validation-only by the type of `RunError`; the runtime counterpart of
`MissingLabel` is exactly the `crashLabel` panic shown unreachable.) -/
theorem c2_validate_soundness (p : Program) (q : Problem)
    (hv : p.validate q = .ok ()) (input output : List Value) (fuel : Nat) (s : GState) :
    run_io p input output fuel s ≠ .crashLabel := by
  have hcmds : validateCommands q p.labels p.commands = none := by
    unfold Program.validate at hv
    cases h : validateCommands q p.labels p.commands with
    | none => rfl
    | some e => rw [h] at hv; cases hv
  have H := validateCommands_label (q := q) hcmds
  clear hv hcmds
  induction fuel generalizing s with
  | zero => simp [run_io]
  | succ f ih =>
    rw [run_io]
    cases hstep : stepIo p input output s with
    | inr out =>
      intro hcontra
      dsimp only at hcontra
      exact stepIo_no_crashLabel H s (by rw [hstep, hcontra])
    | inl s' =>
      dsimp only
      exact ih s'

/-- Witness for C2: a concrete validated looping program; the interpreter
does not hit the label panic. -/
theorem c2_witness :
    Program.validate ⟨[.jump "a", .end_], [("a", 0)]⟩ ⟨[], [], ["JUMP"]⟩ = .ok ()
    ∧ run_io ⟨[.jump "a", .end_], [("a", 0)]⟩ [] [] 3 (initGState []) ≠ .crashLabel :=
  ⟨by rfl, c2_validate_soundness ⟨[.jump "a", .end_], [("a", 0)]⟩ ⟨[], [], ["JUMP"]⟩
    (by rfl) [] [] 3 (initGState [])⟩

/-- C9 (amended): executing an un-validated Program whose current
instruction is a `Jump` to a label absent from the label table reaches the
documented panic of `Program::get_label` (`crashLabel`) — a panic, not an
error result. -/
theorem c9_missing_label_panics (p : Program) (input output : List Value)
    (fuel : Nat) (s : GState) (l : String)
    (hfetch : p.commands[s.i_command]? = some (.jump l))
    (hmiss : lookupLabel p.labels l = none) :
    run_io p input output (fuel + 1) s = .crashLabel := by
  have h1 : stepIo p input output s = .inr .crashLabel := by
    simp only [stepIo, Program.get_label, hfetch, hmiss]
  rw [run_io, h1]

/-- Witness for C9's amended theorem at a concrete un-validated program. -/
theorem c9_witness :
    (([Command.jump "a", Command.end_] : List Command)[(0 : Nat)]?
        = some (Command.jump "a"))
    ∧ run_io ⟨[.jump "a", .end_], []⟩ [] [] 1 (initGState []) = .crashLabel :=
  ⟨rfl, c9_missing_label_panics ⟨[.jump "a", .end_], []⟩ [] [] 0 (initGState []) "a"
    rfl rfl⟩

/-- C4: an IO-case execution that exits the loop without a `RunError` and
with the full expected output produced halted either because the program
counter reached the executed command count (then the step count is
returned unadjusted) or because an `Inbox` found the input exhausted (the
program counter is the `usize::MAX` sentinel; then one step — the
triggering `Inbox` — is subtracted). -/
theorem c4_halt_reason_step_adjust (input output : List Value)
    (memory : List (Option Value)) (s' : NState)
    (hloop : loopNew input output 7 (initNState memory) = .okS s')
    (hout : s'.i_output = output.length) :
    (s'.i_command = 6 ∧ run_io_new input output memory = .ok s'.speed)
    ∨ (s'.i_command = USIZE_MAX ∧ s'.i_input = input.length
        ∧ run_io_new input output memory = .ok (s'.speed - 1)) := by
  have hrun : run_io_new input output memory = finishNew output s' := by
    unfold run_io_new
    rw [hloop]
  rcases loopNew_halt_char input output memory s' hloop with h6 | ⟨hmax, hexh⟩
  · refine Or.inl ⟨h6, ?_⟩
    rw [hrun]
    unfold finishNew
    rw [if_pos hout, if_pos h6, Nat.sub_zero]
  · refine Or.inr ⟨hmax, hexh, ?_⟩
    rw [hrun]
    unfold finishNew
    rw [if_pos hout, if_neg (by rw [hmax]; decide)]

/-- Witness for C4 at the `INBOX`/`OUTBOX`-style tapes `[5] → [5]`: the
loop halts on the exhausting third `Inbox` with 3 counted steps, and the
recorded step count is 2. -/
theorem c4_witness :
    loopNew [Value.int 5] [Value.int 5] 7 (initNState [])
        = .okS ⟨[], some (.int 5), 1, 1, USIZE_MAX, 3, false, true, false⟩
    ∧ ((⟨[], some (.int 5), 1, 1, USIZE_MAX, 3, false, true, false⟩ : NState).i_output
        = [Value.int 5].length)
    ∧ (((⟨[], some (.int 5), 1, 1, USIZE_MAX, 3, false, true, false⟩ : NState).i_command = 6
        ∧ run_io_new [Value.int 5] [Value.int 5] []
            = .ok (⟨[], some (.int 5), 1, 1, USIZE_MAX, 3, false, true, false⟩ : NState).speed)
      ∨ ((⟨[], some (.int 5), 1, 1, USIZE_MAX, 3, false, true, false⟩ : NState).i_command
            = USIZE_MAX
        ∧ (⟨[], some (.int 5), 1, 1, USIZE_MAX, 3, false, true, false⟩ : NState).i_input
            = [Value.int 5].length
        ∧ run_io_new [Value.int 5] [Value.int 5] []
            = .ok ((⟨[], some (.int 5), 1, 1, USIZE_MAX, 3, false, true, false⟩ : NState).speed
                - 1))) :=
  ⟨by decide, by decide,
   c4_halt_reason_step_adjust [Value.int 5] [Value.int 5] [] _ (by decide) (by decide)⟩

/-- C10: an IO-case execution that exits the loop without a `RunError` but
with the output cursor strictly below the expected output length yields
`IncorrectOutput` with the next expected value and no actual value; a step
count is returned only when the output cursor equals the output length. -/
theorem c10_incomplete_output (input output : List Value)
    (memory : List (Option Value)) (s' : NState)
    (hloop : loopNew input output 7 (initNState memory) = .okS s') :
    (s'.i_output < output.length →
      ∃ v, output[s'.i_output]? = some v
        ∧ run_io_new input output memory = .error (.incorrectOutput (some v) none))
    ∧ (∀ n, run_io_new input output memory = .ok n → s'.i_output = output.length) := by
  have hrun : run_io_new input output memory = finishNew output s' := by
    unfold run_io_new
    rw [hloop]
  constructor
  · intro hlt
    refine ⟨output[s'.i_output], List.getElem?_eq_getElem hlt, ?_⟩
    rw [hrun]
    unfold finishNew
    rw [if_neg (Nat.ne_of_lt hlt), List.getElem?_eq_getElem hlt]
  · intro n hn
    by_contra hne
    rw [hrun] at hn
    unfold finishNew at hn
    rw [if_neg hne] at hn
    cases h : output[s'.i_output]? <;> rw [h] at hn <;> cases hn

/-- Witness for C10: with no input and one expected output value the loop
exits cleanly but the output cursor is 0 < 1; the run returns
`IncorrectOutput { expected: Some(Int(5)), value: None }`. -/
theorem c10_witness :
    loopNew [] [Value.int 5] 7 (initNState [])
        = .okS ⟨[], none, 0, 0, USIZE_MAX, 1, true, false, false⟩
    ∧ (∃ v, [Value.int 5][(0 : Nat)]? = some v
        ∧ run_io_new [] [Value.int 5] [] = .error (.incorrectOutput (some v) none)) :=
  ⟨by decide,
   (c10_incomplete_output [] [Value.int 5] []
      ⟨[], none, 0, 0, USIZE_MAX, 1, true, false, false⟩ (by decide)).1 (by decide)⟩

/-- C1 (code bug): `Program::run` does not drive the fetch-execute loop
over the Program's own instruction sequence — `run_io_new` executes the
hardcoded `[Inbox, Outbox, Inbox, Outbox, Inbox, Outbox]` vector. For the
one-instruction program `OUTBOX` and a problem with one IO case `[] → []`,
the claimed semantics (the in-source interpreter `run_io` over the
program's own commands) aborts with `EmptyAcc(Outbox)`, but `run` returns
a success score of 0 steps. -/
theorem c1_run_ignores_program :
    Program.run ⟨[.outbox, .end_], []⟩ ⟨[⟨[], []⟩], [], []⟩ = .ok ⟨1, 0, 0, 0⟩
    ∧ run_io ⟨[.outbox, .end_], []⟩ [] [] 5 (initGState [])
        = .err (.emptyAcc .outbox) := by
  have h : runIos [] [⟨[], []⟩] (4294967295, 0, 0) = .ok (0, 0, 0) := by decide
  constructor
  · unfold Program.run
    rw [h]
    dsimp only
    simp only [Except.ok.injEq, Score.mk.injEq]
    norm_num
  · rfl

/-- Counterexample for C9: an un-validated program whose only instruction
jumps to the missing label `"a"`. Executing it with the in-source
fetch-execute interpreter reaches `get_label`'s panicking branch
(`crashLabel`) — no explicit error result; and the live `Program::run`
never even looks at the program's instructions, returning a success score
instead of surfacing the missing label. -/
theorem c9_counterexample :
    run_io ⟨[.jump "a", .end_], []⟩ [] [] 2 (initGState []) = .crashLabel
    ∧ Program.run ⟨[.jump "a", .end_], []⟩ ⟨[⟨[], []⟩], [], []⟩ = .ok ⟨1, 0, 0, 0⟩ := by
  have h : runIos [] [⟨[], []⟩] (4294967295, 0, 0) = .ok (0, 0, 0) := by decide
  constructor
  · rfl
  · unfold Program.run
    rw [h]
    dsimp only
    simp only [Except.ok.injEq, Score.mk.injEq]
    norm_num

/-- Counterexample for C8: the line `COMMENT 9999999999` matches the
`COMMENT` pragma shape, but instead of being ignored the compiler panics —
`parse::<u32>().unwrap()` overflows (9999999999 > u32::MAX) — so
compilation neither succeeds (as it would for an ignored pragma, yielding
the empty program) nor fails with `IllegalLine`. -/
theorem c8_counterexample :
    Compiler.compile "COMMENT 9999999999" = .crashed
    ∧ compile_instruction_new "COMMENT 9999999999" = .crashed
    ∧ CPRes.crashed ≠ CPRes.ok ⟨[.end_], []⟩
    ∧ CPRes.crashed ≠ CPRes.err (.IllegalLine "COMMENT 9999999999") := by
  refine ⟨by decide, by decide, by decide, by decide⟩

/-- C8 (amended): every trimmed line is classified by the fixed shape
order blank → commented-out `--...--` delimiter → `COMMENT`/`DEFINE`
pragma → label declaration → instruction, first match wins, and a line
matching none of the shapes is `IllegalLine` carrying the trimmed text —
except that a pragma or operand numeral beyond the machine-integer range
panics (`crashed`) instead of being ignored. Moreover the first
`IllegalLine` aborts compilation of the whole input with that error: no
partial `Program` is returned. -/
theorem c8_line_classification :
    (∀ line : String, compile_instruction_new line = specClassify line)
    ∧ (∀ (cmds : List Command) (labels : List (String × Nat))
        (pre post : List String) (t : String) (e : ParseError),
        (∀ l ∈ pre, ∃ pl, compile_instruction_new l = .ok pl) →
        compile_instruction_new t = .err e →
        compileGo cmds labels (pre ++ t :: post) = .err e) :=
  ⟨compile_instruction_new_eq_specClassify,
   fun cmds labels pre post t e h ht => compileGo_first_illegal pre cmds labels post t e h ht⟩

/-- Witness for C8's amended theorem: the classifier agrees with the
spec-side shape order on a concrete instruction line, and a concrete
illegal line aborts a compilation that had already accepted `INBOX`. -/
theorem c8_witness :
    compile_instruction_new "  JUMPZ  ab" = specClassify "  JUMPZ  ab"
    ∧ compileGo [] [] (["INBOX"] ++ "???" :: ["OUTBOX"]) = .err (.IllegalLine "???") :=
  ⟨(c8_line_classification.1) "  JUMPZ  ab",
   (c8_line_classification.2) [] [] ["INBOX"] ["OUTBOX"] "???" (.IllegalLine "???")
     (fun l hl => by
        rcases List.mem_singleton.mp hl with rfl
        exact ⟨.CommandNew .inbox, by decide⟩)
     (by decide)⟩

/-- Counterexample for C5: the program compiled from `INBOX` / `OUTBOX`,
run against input `[5]`, expected output `[5]`, memory size 0, records 2
steps for the IO case (Inbox, Outbox, exhausting Inbox = 3 counted steps,
minus the triggering Inbox), not 1 as claimed. -/
theorem c5_counterexample :
    Compiler.compile "INBOX\nOUTBOX" = .ok ⟨[.inbox, .outbox, .end_], []⟩
    ∧ Program.run ⟨[.inbox, .outbox, .end_], []⟩
        ⟨[⟨[.int 5], [.int 5]⟩], [], ["INBOX", "OUTBOX"]⟩ = .ok ⟨2, 2, 2, 2⟩
    ∧ (Score.mk 2 2 2 2).speed_min ≠ 1 ∧ (Score.mk 2 2 2 2).speed_max ≠ 1 := by
  have h : runIos [] [⟨[Value.int 5], [Value.int 5]⟩] (4294967295, 0, 0)
      = .ok (2, 2, 2) := by decide
  refine ⟨by decide, ?_, by decide, by decide⟩
  unfold Program.run
  rw [h]
  dsimp only
  simp only [Except.ok.injEq, Score.mk.injEq]
  norm_num

/-- C5 (amended): the `INBOX` / `OUTBOX` program against input `[5]`,
expected output `[5]`, memory size 0: `run` succeeds with size 2 and a
per-case step count of 2. -/
theorem c5_copy_scenario :
    Compiler.compile "INBOX\nOUTBOX" = .ok ⟨[.inbox, .outbox, .end_], []⟩
    ∧ run_io_new [.int 5] [.int 5] [] = .ok 2
    ∧ Program.run ⟨[.inbox, .outbox, .end_], []⟩
        ⟨[⟨[.int 5], [.int 5]⟩], [], ["INBOX", "OUTBOX"]⟩ = .ok ⟨2, 2, 2, 2⟩ := by
  have h : runIos [] [⟨[Value.int 5], [Value.int 5]⟩] (4294967295, 0, 0)
      = .ok (2, 2, 2) := by decide
  refine ⟨by decide, by decide, ?_⟩
  unfold Program.run
  rw [h]
  dsimp only
  simp only [Except.ok.injEq, Score.mk.injEq]
  norm_num

end HRM
